import Mathlib

/-!
Verification development for the boxxy enclosure core
(src/enclosure/mod.rs). Paths are modelled as lists of components below
the filesystem root; the host filesystem is modelled as the sets of
existing files and directories; the effectful parts of the enclosure
(cleanup, waiting, detaching, tracing) are modelled as pure functions
producing action traces and outcomes, translated statement by statement
from the Rust source.
-/

/-- A filesystem path, as its list of components below the root. The root
itself is the empty list. -/
abbrev BoxPath := List String

/-- The Rust Path.parent: none for the root, otherwise the path with the
last component dropped. -/
def pathParent : BoxPath → Option BoxPath
  | [] => none
  | p => some p.dropLast

/-- All nonempty ancestors of a path, shortest first, the path itself
included. -/
def prefixesOf (p : BoxPath) : List BoxPath :=
  (List.range p.length).map (fun i => p.take (i + 1))

/-- The host filesystem state: the set of existing regular files and the
set of existing directories, as lists used for membership only. -/
structure Fs where
  files : List BoxPath
  dirs : List BoxPath
deriving DecidableEq

/-- Modelled from the spec: Path.exists on the host. The root always
exists; otherwise a path exists when it was created as a file or as a
directory. -/
def Fs.pathExists (fs : Fs) (p : BoxPath) : Bool :=
  p.isEmpty || decide (p ∈ fs.files) || decide (p ∈ fs.dirs)

/-- Modelled from the spec: FsDriver.touch creates an empty file at the
path (fs.rs is not among the provided sources; spec section 4.1). -/
def Fs.touch (fs : Fs) (p : BoxPath) : Fs :=
  { fs with files := fs.files ++ [p] }

/-- Modelled from the spec: FsDriver.touch_dir creates a directory tree
at the path, making missing parents as directories; idempotent (fs.rs is
not among the provided sources; spec section 4.1). -/
def Fs.touchDir (fs : Fs) (p : BoxPath) : Fs :=
  { fs with dirs := fs.dirs ++ prefixesOf p }

/-- Enclosure.ensure_file (mod.rs lines 547 to 559): if the path does not
exist, first create a missing parent directory tree, then touch the file
and report true; otherwise report false. -/
def ensure_file (fs : Fs) (p : BoxPath) : Fs × Bool :=
  if fs.pathExists p then (fs, false)
  else
    let fs1 :=
      match pathParent p with
      | some par => if fs.pathExists par then fs else fs.touchDir par
      | none => fs
    (fs1.touch p, true)

/-- Enclosure.ensure_directory (mod.rs lines 561 to 568): if the path
does not exist, create the directory tree and report true; otherwise
report false. -/
def ensure_directory (fs : Fs) (p : BoxPath) : Fs × Bool :=
  if fs.pathExists p then (fs, false) else (fs.touchDir p, true)

lemma pathExists_touch_mono (fs : Fs) (p q : BoxPath) (h : fs.pathExists q = true) :
    (fs.touch p).pathExists q = true := by
  simp only [Fs.pathExists, Fs.touch, Bool.or_eq_true, decide_eq_true_eq,
    List.mem_append] at h ⊢
  tauto

lemma pathExists_touchDir_mono (fs : Fs) (p q : BoxPath) (h : fs.pathExists q = true) :
    (fs.touchDir p).pathExists q = true := by
  simp only [Fs.pathExists, Fs.touchDir, Bool.or_eq_true, decide_eq_true_eq,
    List.mem_append] at h ⊢
  tauto

lemma pathExists_touch_self (fs : Fs) (p : BoxPath) :
    (fs.touch p).pathExists p = true := by
  simp [Fs.pathExists, Fs.touch, List.mem_append]

lemma pathExists_touchDir_of_mem (fs : Fs) (p q : BoxPath) (h : q ∈ prefixesOf p) :
    (fs.touchDir p).pathExists q = true := by
  simp only [Fs.pathExists, Fs.touchDir, Bool.or_eq_true, decide_eq_true_eq,
    List.mem_append]
  tauto

lemma mem_prefixesOf_self (p : BoxPath) (h : p ≠ []) : p ∈ prefixesOf p := by
  have hlen : 0 < p.length := List.length_pos.mpr h
  simp only [prefixesOf, List.mem_map, List.mem_range]
  exact ⟨p.length - 1, by omega, by
    have : p.length - 1 + 1 = p.length := by omega
    rw [this, List.take_length]⟩

lemma pathExists_touchDir_self (fs : Fs) (p : BoxPath) :
    (fs.touchDir p).pathExists p = true := by
  rcases eq_or_ne p [] with h | h
  · simp [h, Fs.pathExists]
  · exact pathExists_touchDir_of_mem fs p p (mem_prefixesOf_self p h)

lemma ensure_file_exists_self (fs : Fs) (p : BoxPath) :
    (ensure_file fs p).1.pathExists p = true := by
  by_cases h : fs.pathExists p
  · simp [ensure_file, h]
  · simp only [ensure_file, h, if_false, Bool.false_eq_true]
    exact pathExists_touch_self _ p

lemma ensure_directory_exists_self (fs : Fs) (p : BoxPath) :
    (ensure_directory fs p).1.pathExists p = true := by
  by_cases h : fs.pathExists p
  · simp [ensure_directory, h]
  · simp only [ensure_directory, h, if_false, Bool.false_eq_true]
    exact pathExists_touchDir_self _ p

lemma ensure_file_mono (fs : Fs) (p q : BoxPath) (h : fs.pathExists q = true) :
    (ensure_file fs p).1.pathExists q = true := by
  by_cases hp : fs.pathExists p
  · simpa [ensure_file, hp] using h
  · simp only [ensure_file, hp, if_false, Bool.false_eq_true]
    cases hpar : pathParent p with
    | none => exact pathExists_touch_mono _ _ _ h
    | some par =>
      by_cases hpe : fs.pathExists par
      · simp only [hpe, if_true]
        exact pathExists_touch_mono _ _ _ h
      · simp only [hpe, if_false, Bool.false_eq_true]
        exact pathExists_touch_mono _ _ _ (pathExists_touchDir_mono _ _ _ h)

lemma ensure_directory_mono (fs : Fs) (p q : BoxPath) (h : fs.pathExists q = true) :
    (ensure_directory fs p).1.pathExists q = true := by
  by_cases hp : fs.pathExists p
  · simpa [ensure_directory, hp] using h
  · simp only [ensure_directory, hp, if_false, Bool.false_eq_true]
    exact pathExists_touchDir_mono _ _ _ h

/-- Claim C9: for every path p, ensure_file p and ensure_directory p
return true exactly when the path did not yet exist (so was created) and
false when it already existed; both leave the path existing; and when
ensure_file creates a file whose parent directory is missing, it first
creates all the missing parent directories. -/
theorem ensure_create_semantics (fs : Fs) (p : BoxPath) :
    ((ensure_file fs p).2 = !fs.pathExists p) ∧
    ((ensure_directory fs p).2 = !fs.pathExists p) ∧
    ((ensure_file fs p).1.pathExists p = true) ∧
    ((ensure_directory fs p).1.pathExists p = true) ∧
    (fs.pathExists p = false →
      ∀ par, pathParent p = some par → fs.pathExists par = false →
        ∀ q ∈ prefixesOf par, (ensure_file fs p).1.pathExists q = true) := by
  refine ⟨?_, ?_, ensure_file_exists_self fs p, ensure_directory_exists_self fs p, ?_⟩
  · by_cases h : fs.pathExists p <;> simp [ensure_file, h]
  · by_cases h : fs.pathExists p <;> simp [ensure_directory, h]
  · intro hp par hpar hparmiss q hq
    simp only [ensure_file, hp, if_false, Bool.false_eq_true, hpar, hparmiss]
    exact pathExists_touch_mono _ _ _ (pathExists_touchDir_of_mem _ _ _ hq)

/-- Concrete check of ensure_create_semantics on an empty filesystem and
the path home/user/cfg. -/
theorem ensure_create_semantics_check :
    (ensure_file ⟨[], []⟩ ["home", "user", "cfg"]).2 =
      !(Fs.pathExists ⟨[], []⟩ ["home", "user", "cfg"]) ∧
    (ensure_file ⟨[], []⟩ ["home", "user", "cfg"]).1.pathExists ["home", "user"] = true :=
  ⟨(ensure_create_semantics ⟨[], []⟩ ["home", "user", "cfg"]).1,
   (ensure_create_semantics ⟨[], []⟩ ["home", "user", "cfg"]).2.2.2.2 (by decide)
     ["home", "user"] (by decide) (by decide) ["home", "user"] (by decide)⟩

/-- Rule mode (rule.rs): a rule redirects either a file or a directory. -/
inductive RuleMode
  | file
  | directory
deriving DecidableEq

/-- A rule as the enclosure consumes it during path preparation, with
target already expanded and symlink-resolved and rewrite already
expanded (the expansion itself is FsDriver work outside this module). -/
structure ModelRule where
  target : BoxPath
  rewrite : BoxPath
  mode : RuleMode
deriving DecidableEq

/-- The mutable enclosure state that path materialisation touches: the
host filesystem plus the created_files and created_directories lists of
the Enclosure struct (mod.rs lines 44 to 45). -/
structure EncState where
  fs : Fs
  created_files : List BoxPath
  created_directories : List BoxPath
deriving DecidableEq

/-- One iteration of Enclosure.set_up_temporary_files (mod.rs lines 249
to 276): ensure the rewrite endpoint with the result discarded, ensure
the target endpoint, and record the target in created_files or
created_directories only when that second ensure reports creation. -/
def set_up_temp_rule (st : EncState) (r : ModelRule) : EncState :=
  match r.mode with
  | RuleMode.file =>
    let step1 := ensure_file st.fs r.rewrite
    let step2 := ensure_file step1.1 r.target
    { fs := step2.1,
      created_files :=
        if step2.2 then st.created_files ++ [r.target] else st.created_files,
      created_directories := st.created_directories }
  | RuleMode.directory =>
    let step1 := ensure_directory st.fs r.rewrite
    let step2 := ensure_directory step1.1 r.target
    { fs := step2.1,
      created_files := st.created_files,
      created_directories :=
        if step2.2 then st.created_directories ++ [r.target] else st.created_directories }

/-- Enclosure.set_up_temporary_files (mod.rs lines 248 to 279): process
every applicable rule in order. -/
def set_up_temporary_files (st : EncState) (rules : List ModelRule) : EncState :=
  rules.foldl set_up_temp_rule st

/-- One cleanup side effect of the parent after the child exits. -/
inductive CleanupAction
  | cleanupRoot (name : String)
  | removeFile (p : BoxPath)
  | removeDir (p : BoxPath)
deriving DecidableEq

/-- Enclosure.clean_up_container (mod.rs lines 368 to 387): remove every
recorded file in order, then every recorded directory in reverse order. -/
def clean_up_container_actions (files dirs : List BoxPath) : List CleanupAction :=
  files.foldl (fun acc f => acc ++ [CleanupAction.removeFile f]) [] ++
    dirs.reverse.foldl (fun acc d => acc ++ [CleanupAction.removeDir d]) []

lemma foldl_append_singleton {α β : Type} (f : α → β) :
    ∀ (l : List α) (acc : List β),
      l.foldl (fun a x => a ++ [f x]) acc = acc ++ l.map f := by
  intro l
  induction l with
  | nil => intro acc; simp
  | cons x xs ih => intro acc; simp [ih]

lemma clean_up_container_actions_eq (files dirs : List BoxPath) :
    clean_up_container_actions files dirs =
      files.map CleanupAction.removeFile ++ dirs.reverse.map CleanupAction.removeDir := by
  unfold clean_up_container_actions
  rw [foldl_append_singleton, foldl_append_singleton]
  simp

lemma ensure_file_snd (fs : Fs) (p : BoxPath) :
    (ensure_file fs p).2 = !fs.pathExists p := by
  by_cases h : fs.pathExists p <;> simp [ensure_file, h]

lemma ensure_directory_snd (fs : Fs) (p : BoxPath) :
    (ensure_directory fs p).2 = !fs.pathExists p := by
  by_cases h : fs.pathExists p <;> simp [ensure_directory, h]

lemma set_up_temp_rule_file_eq (st : EncState) (target rewr : BoxPath) :
    set_up_temp_rule st ⟨target, rewr, RuleMode.file⟩ =
      { fs := (ensure_file (ensure_file st.fs rewr).1 target).1,
        created_files :=
          if (ensure_file (ensure_file st.fs rewr).1 target).2 then
            st.created_files ++ [target]
          else st.created_files,
        created_directories := st.created_directories } := rfl

lemma set_up_temp_rule_directory_eq (st : EncState) (target rewr : BoxPath) :
    set_up_temp_rule st ⟨target, rewr, RuleMode.directory⟩ =
      { fs := (ensure_directory (ensure_directory st.fs rewr).1 target).1,
        created_files := st.created_files,
        created_directories :=
          if (ensure_directory (ensure_directory st.fs rewr).1 target).2 then
            st.created_directories ++ [target]
          else st.created_directories } := rfl

/-- Claim C5 (amended): during rule preparation both endpoints exist
afterwards; a target that is still absent after the rewrite endpoint was
ensured is recorded in the created list matching the rule mode and its
removal appears in the cleanup actions; but the only path a rule can add
to the created lists is its target, so an absent rewrite endpoint is
materialised without ever being recorded. -/
theorem temp_rule_materialisation (st : EncState) (r : ModelRule) :
    ((set_up_temp_rule st r).fs.pathExists r.rewrite = true) ∧
    ((set_up_temp_rule st r).fs.pathExists r.target = true) ∧
    (r.mode = RuleMode.file →
      (ensure_file st.fs r.rewrite).1.pathExists r.target = false →
        (set_up_temp_rule st r).created_files = st.created_files ++ [r.target] ∧
        CleanupAction.removeFile r.target ∈
          clean_up_container_actions (set_up_temp_rule st r).created_files
            (set_up_temp_rule st r).created_directories) ∧
    (r.mode = RuleMode.directory →
      (ensure_directory st.fs r.rewrite).1.pathExists r.target = false →
        (set_up_temp_rule st r).created_directories = st.created_directories ++ [r.target] ∧
        CleanupAction.removeDir r.target ∈
          clean_up_container_actions (set_up_temp_rule st r).created_files
            (set_up_temp_rule st r).created_directories) ∧
    (∀ p, p ∈ (set_up_temp_rule st r).created_files ++
          (set_up_temp_rule st r).created_directories →
       p ∈ st.created_files ++ st.created_directories ∨ p = r.target) := by
  rcases r with ⟨target, rewr, mode⟩
  cases mode
  case file =>
    rw [set_up_temp_rule_file_eq]
    refine ⟨?_, ?_, ?_, ?_, ?_⟩
    · exact ensure_file_mono _ _ _ (ensure_file_exists_self st.fs rewr)
    · exact ensure_file_exists_self _ target
    · intro _ habs
      have hsnd : (ensure_file (ensure_file st.fs rewr).1 target).2 = true := by
        rw [ensure_file_snd, habs]; rfl
      refine ⟨by simp [hsnd], ?_⟩
      rw [clean_up_container_actions_eq]
      simp [hsnd]
    · intro h; exact absurd h (by simp)
    · intro p hp
      by_cases hsnd : (ensure_file (ensure_file st.fs rewr).1 target).2 = true
      · simp only [hsnd, if_true, List.mem_append, List.mem_singleton] at hp
        simp only [List.mem_append]
        tauto
      · simp only [Bool.not_eq_true] at hsnd
        simp only [hsnd, Bool.false_eq_true, if_false, List.mem_append] at hp
        simp only [List.mem_append]
        tauto
  case directory =>
    rw [set_up_temp_rule_directory_eq]
    refine ⟨?_, ?_, ?_, ?_, ?_⟩
    · exact ensure_directory_mono _ _ _ (ensure_directory_exists_self st.fs rewr)
    · exact ensure_directory_exists_self _ target
    · intro h; exact absurd h (by simp)
    · intro _ habs
      have hsnd : (ensure_directory (ensure_directory st.fs rewr).1 target).2 = true := by
        rw [ensure_directory_snd, habs]; rfl
      refine ⟨by simp [hsnd], ?_⟩
      rw [clean_up_container_actions_eq]
      simp [hsnd]
    · intro p hp
      by_cases hsnd : (ensure_directory (ensure_directory st.fs rewr).1 target).2 = true
      · simp only [hsnd, if_true, List.mem_append, List.mem_singleton] at hp
        simp only [List.mem_append]
        tauto
      · simp only [Bool.not_eq_true] at hsnd
        simp only [hsnd, Bool.false_eq_true, if_false, List.mem_append] at hp
        simp only [List.mem_append]
        tauto

/-- Concrete check of temp_rule_materialisation: a file rule whose target
is absent records the target and schedules its removal. -/
theorem temp_rule_materialisation_check :
    (set_up_temp_rule ⟨⟨[], []⟩, [], []⟩
        ⟨["data", "tg"], ["data", "rw"], RuleMode.file⟩).created_files = [["data", "tg"]] ∧
    CleanupAction.removeFile ["data", "tg"] ∈
      clean_up_container_actions
        (set_up_temp_rule ⟨⟨[], []⟩, [], []⟩
          ⟨["data", "tg"], ["data", "rw"], RuleMode.file⟩).created_files
        (set_up_temp_rule ⟨⟨[], []⟩, [], []⟩
          ⟨["data", "tg"], ["data", "rw"], RuleMode.file⟩).created_directories :=
  (temp_rule_materialisation ⟨⟨[], []⟩, [], []⟩
    ⟨["data", "tg"], ["data", "rw"], RuleMode.file⟩).2.2.1 rfl (by decide)

/-- Counterexample to claim C5 as stated: a file rule whose rewrite
endpoint is absent materialises the rewrite path on the host, yet the
path appears in neither created list and no cleanup action removes it. -/
theorem temp_rule_rewrite_unrecorded_cex :
    (Fs.pathExists ⟨[], []⟩ ["data", "rw"] = false) ∧
    ((set_up_temporary_files ⟨⟨[], []⟩, [], []⟩
        [⟨["data", "tg"], ["data", "rw"], RuleMode.file⟩]).fs.pathExists
          ["data", "rw"] = true) ∧
    (["data", "rw"] ∉ (set_up_temporary_files ⟨⟨[], []⟩, [], []⟩
        [⟨["data", "tg"], ["data", "rw"], RuleMode.file⟩]).created_files) ∧
    (["data", "rw"] ∉ (set_up_temporary_files ⟨⟨[], []⟩, [], []⟩
        [⟨["data", "tg"], ["data", "rw"], RuleMode.file⟩]).created_directories) ∧
    (CleanupAction.removeFile ["data", "rw"] ∉
      clean_up_container_actions
        (set_up_temporary_files ⟨⟨[], []⟩, [], []⟩
          [⟨["data", "tg"], ["data", "rw"], RuleMode.file⟩]).created_files
        (set_up_temporary_files ⟨⟨[], []⟩, [], []⟩
          [⟨["data", "tg"], ["data", "rw"], RuleMode.file⟩]).created_directories) ∧
    (CleanupAction.removeDir ["data", "rw"] ∉
      clean_up_container_actions
        (set_up_temporary_files ⟨⟨[], []⟩, [], []⟩
          [⟨["data", "tg"], ["data", "rw"], RuleMode.file⟩]).created_files
        (set_up_temporary_files ⟨⟨[], []⟩, [], []⟩
          [⟨["data", "tg"], ["data", "rw"], RuleMode.file⟩]).created_directories) := by
  decide

/-- One iteration of the rule-application loop in
Enclosure.set_up_container (mod.rs lines 343 to 360), restricted to its
bookkeeping: if the joined target path does not exist it is created with
ensure_file or ensure_directory, and in BOTH rule modes the created path
is pushed into created_files (lines 348 and 356 of the source). -/
def apply_container_rule (st : EncState) (target : BoxPath) (mode : RuleMode) : EncState :=
  match mode with
  | RuleMode.file =>
    if !(st.fs.pathExists target) then
      { st with
        fs := (ensure_file st.fs target).1,
        created_files := st.created_files ++ [target] }
    else st
  | RuleMode.directory =>
    if !(st.fs.pathExists target) then
      { st with
        fs := (ensure_directory st.fs target).1,
        created_files := st.created_files ++ [target] }
    else st

/-- Claim C1 evaluated at the failing input: a Directory rule whose
joined target is absent has its created path pushed into created_files,
while created_directories stays empty, contradicting the claim that it
is pushed into created_directories. -/
theorem directory_rule_recorded_in_created_files :
    (apply_container_rule ⟨⟨[], []⟩, [], []⟩ ["ctr", "cfg"]
        RuleMode.directory).created_files = [["ctr", "cfg"]] ∧
    (apply_container_rule ⟨⟨[], []⟩, [], []⟩ ["ctr", "cfg"]
        RuleMode.directory).created_directories = [] := by
  decide

/-- One observation of the waitpid loop in Enclosure.run_without_tracing
(mod.rs lines 223 to 236): the child exited with a decoded status byte,
was terminated by a signal, some other wait status arrived, waitpid
failed with ECHILD, or waitpid failed with another errno. -/
inductive WaitRes
  | exited (status : Int)
  | signaled (sig : Nat)
  | otherStatus
  | errEchild
  | errOther
deriving DecidableEq

/-- The waitpid loop of Enclosure.run_without_tracing (mod.rs lines 222
to 237): exit_status starts at -1; an Exited status stores its byte and
breaks; ECHILD breaks with the status untouched; every other observation
sleeps and retries. An observation list with no break event is modelled
as ending the loop with the initial -1. -/
def wait_loop : List WaitRes → Int
  | [] => -1
  | WaitRes.exited s :: _ => s
  | WaitRes.errEchild :: _ => -1
  | _ :: rest => wait_loop rest

/-- Enclosure.run_without_tracing (mod.rs lines 220 to 246): run the wait
loop, then clean up (cleanup_root first, then clean_up_container), then
exit with the recorded child status. The first component is the ordered
list of cleanup side effects, the second the process exit status. -/
def run_without_tracing_model (name : String) (files dirs : List BoxPath)
    (waits : List WaitRes) : List CleanupAction × Int :=
  (CleanupAction.cleanupRoot name :: clean_up_container_actions files dirs,
   wait_loop waits)

/-- Claim C7: for every non-tracing run, the post-wait cleanup performs,
in order, cleanup_root on the enclosure name, then removal of every path
in created_files in insertion order, then removal of every path in
created_directories in reverse insertion order. -/
theorem cleanup_action_order (name : String) (files dirs : List BoxPath)
    (waits : List WaitRes) :
    (run_without_tracing_model name files dirs waits).1 =
      CleanupAction.cleanupRoot name ::
        (files.map CleanupAction.removeFile ++
          (dirs.reverse).map CleanupAction.removeDir) := by
  simp [run_without_tracing_model, clean_up_container_actions_eq]

/-- Counterexample to claim C4 as stated: when the child is terminated by
signal 9 the wait loop observes Signaled, retries, hits ECHILD and exits
with -1, not with 128 + 9 = 137. -/
theorem signal_exit_status_cex :
    (run_without_tracing_model "box" [] []
        [WaitRes.signaled 9, WaitRes.errEchild]).2 = -1 ∧
    ¬ ((run_without_tracing_model "box" [] []
        [WaitRes.signaled 9, WaitRes.errEchild]).2 = 128 + 9) := by
  decide

/-- Claim C4 (amended): when the child exits normally the parent exits
with the decoded WIFEXITED status byte; when the child is terminated by
a signal the Signaled observation is skipped, the following ECHILD ends
the loop, and the parent exits with -1 rather than 128 + signo. -/
theorem exit_status_propagation (name : String) (files dirs : List BoxPath)
    (s : Int) (sig : Nat) (rest rest' : List WaitRes) :
    (run_without_tracing_model name files dirs (WaitRes.exited s :: rest)).2 = s ∧
    (run_without_tracing_model name files dirs
        (WaitRes.signaled sig :: WaitRes.errEchild :: rest')).2 = -1 := by
  constructor <;> rfl

/-- Outcome of ptrace detach in Enclosure.run (mod.rs line 162). -/
inductive DetachOutcome
  | ok
  | esrch
  | otherErr (e : Nat)
deriving DecidableEq

/-- The branch of Enclosure.run after ID mapping in the non-tracing case
(mod.rs lines 162 to 171): on successful detach it calls
run_without_tracing; on ESRCH it logs and returns Ok immediately; on any
other errno it propagates the error. The triple is the ordered cleanup
side effects, the child_exit_status field, and the returned Result. -/
def run_detach_phase (name : String) (files dirs : List BoxPath)
    (waits : List WaitRes) : DetachOutcome → List CleanupAction × Int × Except Nat Unit
  | DetachOutcome.ok =>
    ((run_without_tracing_model name files dirs waits).1,
     (run_without_tracing_model name files dirs waits).2, Except.ok ())
  | DetachOutcome.esrch => ([], -1, Except.ok ())
  | DetachOutcome.otherErr e => ([], -1, Except.error e)

/-- Counterexample to claim C2 as stated: with detach failing with ESRCH
and nonempty created lists, run returns Ok but performs no cleanup at
all: no cleanup_root and no removal of the created paths. -/
theorem esrch_no_cleanup_cex :
    (run_detach_phase "box" [["f"]] [["d"]] [] DetachOutcome.esrch).1 = [] ∧
    CleanupAction.cleanupRoot "box" ∉
      (run_detach_phase "box" [["f"]] [["d"]] [] DetachOutcome.esrch).1 ∧
    (run_detach_phase "box" [["f"]] [["d"]] [] DetachOutcome.esrch).2.2 =
      Except.ok () := by
  refine ⟨rfl, ?_, rfl⟩
  decide

/-- Claim C2 (amended): when detach fails with ESRCH the run is treated
as a benign early exit: the tracing path is skipped, child_exit_status
is left at -1 and run returns Ok immediately, but no cleanup happens on
this path; cleanup_root and created-path removal occur only on the
successful-detach path. -/
theorem esrch_benign_early_exit (name : String) (files dirs : List BoxPath)
    (waits : List WaitRes) :
    (run_detach_phase name files dirs waits DetachOutcome.esrch =
      ([], -1, Except.ok ())) ∧
    ((run_detach_phase name files dirs waits DetachOutcome.ok).1 =
      CleanupAction.cleanupRoot name :: clean_up_container_actions files dirs) := by
  constructor <;> rfl

/-- The gid_map insertions of Enclosure.run (mod.rs lines 129 to 136),
with the HashMap modelled as a lookup function: insert the primary GID
mapped to itself, then the root entry 0 mapped to 0, then every
supplementary group from getgrouplist mapped to itself. -/
def build_gid_map (userGid : Nat) (groups : List Nat) : Nat → Option Nat :=
  let m0 : Nat → Option Nat := fun _ => none
  let m1 : Nat → Option Nat := fun g => if g = userGid then some userGid else m0 g
  let m2 : Nat → Option Nat := fun g => if g = 0 then some 0 else m1 g
  groups.foldl (fun acc x => fun g => if g = x then some x else acc g) m2

lemma build_gid_map_foldl (groups : List Nat) :
    ∀ (m : Nat → Option Nat) (g : Nat),
      (groups.foldl (fun acc x => fun g => if g = x then some x else acc g) m) g =
        if g ∈ groups then some g else m g := by
  induction groups with
  | nil => intro m g; simp
  | cons x xs ih =>
    intro m g
    rw [List.foldl_cons, ih]
    by_cases hx : g = x
    · subst hx
      by_cases hmem : g ∈ xs <;> simp [hmem]
    · by_cases hmem : g ∈ xs <;> simp [hmem, hx]

/-- Claim C8: the GID map written for the child always contains the
root entry 0 mapped to 0, the primary GID mapped to itself, and every
supplementary group from getgrouplist mapped to itself. -/
theorem gid_map_entries (userGid : Nat) (groups : List Nat) :
    build_gid_map userGid groups 0 = some 0 ∧
    build_gid_map userGid groups userGid = some userGid ∧
    (∀ g ∈ groups, build_gid_map userGid groups g = some g) := by
  refine ⟨?_, ?_, ?_⟩
  · rw [build_gid_map, build_gid_map_foldl]
    by_cases hmem : 0 ∈ groups <;> simp [hmem]
  · rw [build_gid_map, build_gid_map_foldl]
    by_cases hmem : userGid ∈ groups
    · simp [hmem]
    · by_cases hz : userGid = 0 <;> simp [hmem, hz]
  · intro g hg
    rw [build_gid_map, build_gid_map_foldl]
    simp [hg]

/-- Concrete check of gid_map_entries for primary GID 1000 and
supplementary groups 4 and 20. -/
theorem gid_map_entries_check :
    build_gid_map 1000 [4, 20] 0 = some 0 ∧
    build_gid_map 1000 [4, 20] 4 = some 4 :=
  ⟨(gid_map_entries 1000 [4, 20]).1,
   (gid_map_entries 1000 [4, 20]).2.2 4 (by decide)⟩

/-- Rust str.contains for plain patterns: the pattern occurs as a
contiguous run of characters somewhere in the line. -/
def lineContains (line : List Char) (pat : String) : Bool :=
  match line with
  | [] => pat.toList.isEmpty
  | c :: rest => pat.toList.isPrefixOf (c :: rest) || lineContains rest pat

/-- The three AppImage marker flags the sniffer looks for. -/
structure SniffFlags where
  help : Bool
  mount : Bool
  extract : Bool
deriving DecidableEq

/-- The sink closure of the AppImage scan in Enclosure.run_in_container
(mod.rs lines 424 to 433): an if / else-if chain, so a single line sets
at most one of the three flags, the first one it contains. -/
def scan_line (f : SniffFlags) (line : List Char) : SniffFlags :=
  if lineContains line "--appimage-help" then { f with help := true }
  else if lineContains line "--appimage-mount" then { f with mount := true }
  else if lineContains line "--appimage-extract" then { f with extract := true }
  else f

/-- The whole scan of the resolved binary, line by line. -/
def sniff_flags (lines : List (List Char)) : SniffFlags :=
  lines.foldl scan_line ⟨false, false, false⟩

/-- The self-extraction check of Enclosure.run_in_container (mod.rs
lines 438 to 448): some command argument equals
--appimage-extract-and-run. -/
def is_self_extracting (args : List String) : Bool :=
  args.any (fun a => a = "--appimage-extract-and-run")

/-- The observable milestones of one run, in program order. -/
inductive RunEvent
  | createTempPaths
  | cloneChild
  | sniffBinary
  | setupRoot
  | applyRules
  | execCommand
deriving DecidableEq

/-- The child callback Enclosure.run_in_container (mod.rs lines 389 to
458) up to command start: resolve and sniff the binary; if all three
AppImage flags were found and the user did not pass the self-extraction
argument, return the AppImage error before set_up_container ever runs;
otherwise set up the container root, apply the rules and exec. -/
def run_in_container_events (lines : List (List Char)) (args : List String) :
    List RunEvent × Except String Unit :=
  let f := sniff_flags lines
  if f.extract && f.help && f.mount && !(is_self_extracting args) then
    ([RunEvent.sniffBinary], Except.error "AppImageUnpacked")
  else
    ([RunEvent.sniffBinary, RunEvent.setupRoot, RunEvent.applyRules,
      RunEvent.execCommand], Except.ok ())

/-- Enclosure.run (mod.rs lines 60 to 98): prepare temporary files, then
clone; the cloned child executes run_in_container, so every child event,
the AppImage sniff included, happens after the clone. -/
def run_events (lines : List (List Char)) (args : List String) :
    List RunEvent × Except String Unit :=
  let child := run_in_container_events lines args
  (RunEvent.createTempPaths :: RunEvent.cloneChild :: child.1, child.2)

/-- Counterexample to claim C3 as stated: for a binary containing all
three AppImage marker strings and no self-extraction argument, the run
still performs the clone (the sniff lives in the cloned child), so a
clone does occur even though the AppImage error is raised and no
enclosure root is created. -/
theorem appimage_clone_cex :
    RunEvent.cloneChild ∈
      (run_events ["--appimage-help".toList, "--appimage-mount".toList,
        "--appimage-extract".toList] []).1 ∧
    (run_events ["--appimage-help".toList, "--appimage-mount".toList,
        "--appimage-extract".toList] []).2 = Except.error "AppImageUnpacked" ∧
    RunEvent.setupRoot ∉
      (run_events ["--appimage-help".toList, "--appimage-mount".toList,
        "--appimage-extract".toList] []).1 := by
  refine ⟨by decide, rfl, by decide⟩

/-- Claim C3 (amended): the AppImage sniff happens in the child after the
clone; whenever the scan finds all three marker strings and the user did
not pass the self-extraction argument, the child fails with the AppImage
error before set_up_container, so no enclosure root is ever created,
although the clone has already occurred. -/
theorem appimage_sniff_refuses (lines : List (List Char)) (args : List String)
    (hh : (sniff_flags lines).help = true)
    (hm : (sniff_flags lines).mount = true)
    (he : (sniff_flags lines).extract = true)
    (hs : is_self_extracting args = false) :
    (run_events lines args).1 =
      [RunEvent.createTempPaths, RunEvent.cloneChild, RunEvent.sniffBinary] ∧
    (run_events lines args).2 = Except.error "AppImageUnpacked" ∧
    RunEvent.setupRoot ∉ (run_events lines args).1 := by
  have hcond : ((sniff_flags lines).extract && (sniff_flags lines).help &&
      (sniff_flags lines).mount && !(is_self_extracting args)) = true := by
    rw [hh, hm, he, hs]; rfl
  refine ⟨?_, ?_, ?_⟩ <;>
    simp [run_events, run_in_container_events, hcond]

/-- Concrete check of appimage_sniff_refuses on a three-line binary with
one marker per line and an empty argument list. -/
theorem appimage_sniff_refuses_check :
    (run_events ["--appimage-help".toList, "--appimage-mount".toList,
        "--appimage-extract".toList] ["run"]).1 =
      [RunEvent.createTempPaths, RunEvent.cloneChild, RunEvent.sniffBinary] ∧
    (run_events ["--appimage-help".toList, "--appimage-mount".toList,
        "--appimage-extract".toList] ["run"]).2 = Except.error "AppImageUnpacked" ∧
    RunEvent.setupRoot ∉
      (run_events ["--appimage-help".toList, "--appimage-mount".toList,
        "--appimage-extract".toList] ["run"]).1 :=
  appimage_sniff_refuses ["--appimage-help".toList, "--appimage-mount".toList,
    "--appimage-extract".toList] ["run"] (by decide) (by decide) (by decide) (by decide)

/-- The state of the report loop in Enclosure.run_with_tracing (mod.rs
lines 194 to 211): the buffer as a list of written lines, the seen_paths
set as the list of paths in first insertion order, and the counter. -/
structure ReportState where
  buffer : List String
  seen : List BoxPath
  counter : Nat
deriving DecidableEq

/-- The line written for one path: the container-root components dropped
and the remainder joined with slashes behind a leading slash, exactly
the writeln of mod.rs line 204. -/
def render_line (root p : BoxPath) : String :=
  "/" ++ String.intercalate "/" (p.drop root.length)

/-- One received SyscallEvent (mod.rs lines 199 to 208): if it carries a
path that starts with the container root and was not seen yet, write its
rendered line, insert it into seen_paths and bump the counter. -/
def process_event (root : BoxPath) (st : ReportState) (ev : Option BoxPath) :
    ReportState :=
  match ev with
  | none => st
  | some path =>
    if root.isPrefixOf path && !(decide (path ∈ st.seen)) then
      { buffer := st.buffer ++ [render_line root path],
        seen := st.seen ++ [path],
        counter := st.counter + 1 }
    else st

/-- The whole receive loop, starting from the empty buffer, empty seen
set and zero counter. -/
def run_report (root : BoxPath) (events : List (Option BoxPath)) : ReportState :=
  events.foldl (process_event root) ⟨[], [], 0⟩

/-- The full content of boxxy-report.txt as a list of lines: the buffered
path lines followed by the final total line (mod.rs line 210). -/
def report_output (root : BoxPath) (events : List (Option BoxPath)) : List String :=
  (run_report root events).buffer ++
    ["# total: " ++ toString (run_report root events).counter]

/-- The paths the loop appends when started with a given seen set. -/
def report_delta (root : BoxPath) (seen : List BoxPath) :
    List (Option BoxPath) → List BoxPath
  | [] => []
  | none :: es => report_delta root seen es
  | some p :: es =>
    if root.isPrefixOf p && !(decide (p ∈ seen)) then
      p :: report_delta root (seen ++ [p]) es
    else report_delta root seen es

/-- Keep the first occurrence of every element, dropping later
duplicates; this is the specification reading of duplicate suppression
in first-seen order. -/
def first_distinct : List BoxPath → List BoxPath
  | [] => []
  | p :: rest => p :: first_distinct (rest.filter (fun q => decide (q ≠ p)))
termination_by l => l.length
decreasing_by
  simp only [List.length_cons]
  exact Nat.lt_succ_of_le (List.length_filter_le _ _)

/-- The distinct observed paths under the container root, in first-seen
order, as the specification describes the report. -/
def spec_report_paths (root : BoxPath) (events : List (Option BoxPath)) :
    List BoxPath :=
  first_distinct ((events.filterMap id).filter (fun p => root.isPrefixOf p))

lemma first_distinct_cons (p : BoxPath) (l : List BoxPath) :
    first_distinct (p :: l) =
      p :: first_distinct (l.filter (fun q => decide (q ≠ p))) := by
  rw [first_distinct]

lemma foldl_process_event (root : BoxPath) :
    ∀ (es : List (Option BoxPath)) (st : ReportState),
      ((es.foldl (process_event root) st).buffer =
        st.buffer ++ (report_delta root st.seen es).map (render_line root)) ∧
      ((es.foldl (process_event root) st).seen =
        st.seen ++ report_delta root st.seen es) ∧
      ((es.foldl (process_event root) st).counter =
        st.counter + (report_delta root st.seen es).length) := by
  intro es
  induction es with
  | nil => intro st; simp [report_delta]
  | cons e es ih =>
    intro st
    rw [List.foldl_cons]
    cases e with
    | none =>
      simp only [process_event, report_delta]
      exact ih st
    | some p =>
      by_cases h : (root.isPrefixOf p && !(decide (p ∈ st.seen))) = true
      · have hst : process_event root st (some p) =
            ⟨st.buffer ++ [render_line root p], st.seen ++ [p], st.counter + 1⟩ := by
          simp [process_event, h]
        have hd : report_delta root st.seen (some p :: es) =
            p :: report_delta root (st.seen ++ [p]) es := by
          simp [report_delta, h]
        rw [hst, hd]
        obtain ⟨h1, h2, h3⟩ :=
          ih ⟨st.buffer ++ [render_line root p], st.seen ++ [p], st.counter + 1⟩
        refine ⟨?_, ?_, ?_⟩
        · rw [h1]; simp
        · rw [h2]; simp
        · rw [h3]; simp only [List.length_cons]; omega
      · have hst : process_event root st (some p) = st := by
          simp only [process_event]
          rw [if_neg (fun hh => h hh)]
        have hd : report_delta root st.seen (some p :: es) =
            report_delta root st.seen es := by
          simp only [report_delta]
          rw [if_neg (fun hh => h hh)]
        rw [hst, hd]
        exact ih st

lemma report_delta_fresh (root : BoxPath) :
    ∀ (es : List (Option BoxPath)) (seen : List BoxPath),
      (∀ p ∈ report_delta root seen es, p ∉ seen) ∧
      (report_delta root seen es).Nodup := by
  intro es
  induction es with
  | nil => intro seen; simp [report_delta]
  | cons e es ih =>
    intro seen
    cases e with
    | none =>
      simp only [report_delta]
      exact ih seen
    | some p =>
      by_cases h : (root.isPrefixOf p && !(decide (p ∈ seen))) = true
      · have hd : report_delta root seen (some p :: es) =
            p :: report_delta root (seen ++ [p]) es := by
          simp [report_delta, h]
        rw [hd]
        obtain ⟨ih1, ih2⟩ := ih (seen ++ [p])
        have hpnot : p ∉ seen := by
          intro hin
          simp [hin] at h
        constructor
        · intro q hq
          rcases List.mem_cons.mp hq with rfl | hq'
          · exact hpnot
          · intro hqin
            exact (ih1 q hq') (List.mem_append_left _ hqin)
        · refine List.nodup_cons.mpr ⟨?_, ih2⟩
          intro hpin
          exact (ih1 p hpin) (by simp)
      · have hd : report_delta root seen (some p :: es) =
            report_delta root seen es := by
          simp only [report_delta]
          rw [if_neg (fun hh => h hh)]
        rw [hd]
        exact ih seen

lemma filter_not_mem_append (seen : List BoxPath) (p : BoxPath) (L : List BoxPath) :
    L.filter (fun q => decide (q ∉ seen ++ [p])) =
      (L.filter (fun q => decide (q ∉ seen))).filter (fun q => decide (q ≠ p)) := by
  rw [List.filter_filter]
  apply List.filter_congr
  intro a _
  by_cases h1 : a ∈ seen <;> by_cases h2 : a = p <;>
    simp [h1, h2, List.mem_append]

lemma report_delta_eq_first_distinct (root : BoxPath) :
    ∀ (es : List (Option BoxPath)) (seen : List BoxPath),
      report_delta root seen es =
        first_distinct
          (((es.filterMap id).filter (fun p => root.isPrefixOf p)).filter
            (fun p => decide (p ∉ seen))) := by
  intro es
  induction es with
  | nil => intro seen; simp [report_delta, first_distinct]
  | cons e es ih =>
    intro seen
    cases e with
    | none =>
      simp only [report_delta, List.filterMap_cons]
      exact ih seen
    | some p =>
      simp only [List.filterMap_cons, id]
      by_cases hpre : root.isPrefixOf p = true
      · by_cases hseen : p ∈ seen
        · have h : (root.isPrefixOf p && !(decide (p ∈ seen))) = false := by
            simp [hpre, hseen]
          have hL : report_delta root seen (some p :: es) =
              report_delta root seen es := by
            simp only [report_delta]
            rw [if_neg]
            simp [h]
          rw [hL, ih seen]
          congr 1
          simp [List.filter_cons, hpre, hseen]
        · have h : (root.isPrefixOf p && !(decide (p ∈ seen))) = true := by
            simp [hpre, hseen]
          have hL : report_delta root seen (some p :: es) =
              p :: report_delta root (seen ++ [p]) es := by
            simp [report_delta, h]
          rw [hL, ih (seen ++ [p]), filter_not_mem_append]
          have hR : ((p :: es.filterMap id).filter (fun q => root.isPrefixOf q)).filter
              (fun q => decide (q ∉ seen)) =
              p :: ((es.filterMap id).filter (fun q => root.isPrefixOf q)).filter
                (fun q => decide (q ∉ seen)) := by
            simp [List.filter_cons, hpre, hseen]
          rw [hR, first_distinct_cons]
      · have h : (root.isPrefixOf p && !(decide (p ∈ seen))) = false := by
          simp [hpre]
        have hL : report_delta root seen (some p :: es) =
            report_delta root seen es := by
          simp only [report_delta]
          rw [if_neg]
          simp [h]
        rw [hL, ih seen]
        congr 2
        simp [List.filter_cons, hpre]

lemma run_report_spec (root : BoxPath) (events : List (Option BoxPath)) :
    ((run_report root events).buffer =
      (report_delta root [] events).map (render_line root)) ∧
    ((run_report root events).seen = report_delta root [] events) ∧
    ((run_report root events).counter = (report_delta root [] events).length) := by
  have h := foldl_process_event root events ⟨[], [], 0⟩
  exact ⟨by simpa using h.1, by simpa using h.2.1, by simpa using h.2.2⟩

lemma filter_not_mem_nil (L : List BoxPath) :
    L.filter (fun p => decide (p ∉ ([] : List BoxPath))) = L := by
  induction L with
  | nil => rfl
  | cons a L ihL => simp [List.filter_cons, ihL]

/-- Claim C6: under tracing, the report consists of exactly one line per
distinct observed path lying under the container root, rendered with the
container-root components stripped and a leading slash, duplicates
suppressed, in first-seen order, followed by a final total line whose
count is the number of those distinct paths; paths not under the
container root and events without a path are omitted. -/
theorem trace_report_format (root : BoxPath) (events : List (Option BoxPath)) :
    report_output root events =
      (spec_report_paths root events).map (render_line root) ++
        ["# total: " ++ toString (spec_report_paths root events).length] := by
  obtain ⟨h1, _, h3⟩ := run_report_spec root events
  have hdelta : report_delta root [] events = spec_report_paths root events := by
    rw [report_delta_eq_first_distinct]
    unfold spec_report_paths
    congr 1
    exact filter_not_mem_nil _
  unfold report_output
  rw [h1, h3, hdelta]

/-- Claim C10: in the trace-report construction the counter is bumped
exactly when a path is first inserted into the seen set, so the total
equals the number of path lines written above it, which equals the
cardinality of the set of distinct reported paths (the seen list has no
duplicates). -/
theorem trace_report_total_counts (root : BoxPath) (events : List (Option BoxPath)) :
    ((run_report root events).counter = (run_report root events).buffer.length) ∧
    ((run_report root events).counter = (run_report root events).seen.length) ∧
    (run_report root events).seen.Nodup := by
  obtain ⟨h1, h2, h3⟩ := run_report_spec root events
  obtain ⟨_, hnodup⟩ := report_delta_fresh root events []
  refine ⟨?_, ?_, ?_⟩
  · rw [h1, h3]; simp
  · rw [h2, h3]
  · rw [h2]; exact hnodup
